import Mathlib

/-!
Verification development for the stormware repository.

We give a shallow embedding of the credential-resolution and connector logic
of the repository (src/stormware): the base authentication manager
(stormware/auth.py), the Google Cloud Platform authentication manager
(stormware/google/auth.py), the AWS authentication manager
(stormware/amazon/auth.py), the Secret Manager connector
(stormware/google/secrets.py) and the Google Drive path object
(stormware/google/drive.py).

External effects (file system, secret-manager service, the OAuth library,
standard input) are modelled by an explicit environment record; the Python
dictionaries and mutable attributes become explicit state values; Python
exceptions become Except results.
-/

namespace Stormware

/-! ## Python-level helpers -/

/-- Truthiness of an optional string, as Python evaluates `s` in a boolean
context: `None` and the empty string are falsy. -/
def truthyStr : Option String → Bool
  | none => false
  | some s => s ≠ ""

/-- The value of a Python `a or b or ...` chain over optional strings:
the first truthy element, if any. -/
def firstTruthy : List (Option String) → Option String
  | [] => none
  | o :: rest => if truthyStr o then o else firstTruthy rest

/-- Python `str.replace(old, new)` on character lists, with explicit fuel
(each step consumes at least one character, so any fuel of at least the
length of the string gives the replacement): replaces occurrences of `old`
from left to right, non-overlapping. -/
def replaceCharsFuel (old new : List Char) : Nat → List Char → List Char
  | 0, s => s
  | _ + 1, [] => []
  | fuel + 1, c :: cs =>
    if old ≠ [] ∧ old = (c :: cs).take old.length then
      new ++ replaceCharsFuel old new fuel ((c :: cs).drop old.length)
    else
      c :: replaceCharsFuel old new fuel cs

/-- Python `str.replace(old, new)` on character lists.  (The source only
calls it with a non-empty `old`.) -/
def replaceChars (old new s : List Char) : List Char :=
  replaceCharsFuel old new s.length s

/-- Python `s.split(sep, 1)` on character lists: the part before the first
occurrence of `sep`, and the remainder after it (or `none` when `sep` does
not occur). -/
def splitFirst (sep : Char) : List Char → List Char × Option (List Char)
  | [] => ([], none)
  | c :: cs =>
    if c = sep then ([], some cs)
    else
      let r := splitFirst sep cs
      (c :: r.1, r.2)

/-! ## stormware/auth.py : the base authentication manager -/

/-- The part of the ambient project configuration (`pyproject.toml`) that the
base authentication manager reads: `tool_config('stormware').get('organization')`. -/
structure AuthConfig where
  toolOrganization : Option String
  deriving DecidableEq, Repr

/-- The base authentication manager state (`Auth.__init__`): the optional
organization passed at construction. -/
structure Auth where
  organization? : Option String
  deriving DecidableEq, Repr

/-- Model of `Auth.organization`: the argument, or the constructor value, or the
`pyproject.toml` value — first truthy wins; raises `ValueError` when all are
falsy. -/
def Auth.organization (cfg : AuthConfig) (self : Auth) (organization : Option String) :
    Except String String :=
  match firstTruthy [organization, self.organization?, cfg.toolOrganization] with
  | some s => .ok s
  | none => .error "You must provide an organization"

/-- Model of `Auth.organization_id`: the organization name with dots replaced by
dashes (`organization.replace('.', '-')`). -/
def Auth.organizationId (cfg : AuthConfig) (self : Auth) (organization : Option String) :
    Except String String :=
  (Auth.organization cfg self organization).map
    (fun s => String.mk (replaceChars ['.'] ['-'] s.data))

/-! ## stormware/google/auth.py : the GCP authentication manager

Data model.  A `Credentials` value records which source produced it
(organization file, service-account impersonation, platform default, or the
OAuth 2.0 flow), the value of its `scopes` attribute as the scope check reads
it (`getattr(credentials, 'scopes', None)`), and its quota project. -/

/-- The source a credential was obtained from. -/
inductive CredSource
  | orgFile
  | impersonated
  | platformDefault
  | oauth
  deriving DecidableEq, Repr

/-- A credential object, as far as the resolution logic observes it. -/
structure Credentials where
  source : CredSource
  scopes : Option (List String)
  quotaProject : Option String := none
  deriving DecidableEq, Repr

/-- The configuration the GCP authentication manager reads from
`pyproject.toml` (`tool_config('stormware')`, its `google` section, and the
`project` table of `PYPROJECT`). -/
structure GCPConfig where
  toolOrganization : Option String
  toolProject : Option String
  pyprojectName : Option String
  serviceAccount : Option String
  oauthCredentialsKey : Option String
  oauthClientSecretsKey : Option String
  deriving DecidableEq, Repr

/-- Value of `GCPAuth.DEFAULT_OAUTH_CREDENTIALS_KEY`. -/
def DEFAULT_OAUTH_CREDENTIALS_KEY : String := "stormware-google-oauth-credentials"

/-- Value of `GCPAuth.DEFAULT_OAUTH_CLIENT_SECRETS_KEY`. -/
def DEFAULT_OAUTH_CLIENT_SECRETS_KEY : String := "stormware-google-oauth-client-secrets"

/-- Value of `GCPAuth.SCOPES`. -/
def GCP_SCOPES : List String :=
  [ "openid",
    "https://www.googleapis.com/auth/userinfo.email",
    "https://www.googleapis.com/auth/cloud-platform",
    "https://www.googleapis.com/auth/spreadsheets",
    "https://www.googleapis.com/auth/drive",
    "https://www.googleapis.com/auth/gmail.readonly" ]

/-- The external world of the GCP authentication manager: the file system,
the secret store, standard input and the OAuth library. -/
structure Env where
  /-- XDG configuration home directory. -/
  xdgConfigHome : String
  /-- Whether a file exists at the given path. -/
  fileExists : String → Bool
  /-- Contents of the file at the given path. -/
  readFile : String → String
  /-- The `scopes` attribute of `OAuth2Credentials.from_authorized_user_info`
  applied to the JSON object parsed from the given string. -/
  parseOauthScopes : String → Option (List String)
  /-- The `scopes` attribute of the impersonated service-account credentials. -/
  impersonatedScopes : Option (List String)
  /-- The `scopes` attribute of the platform application default credentials. -/
  defaultScopes : Option (List String)
  /-- Result of `secrets.get(key)` on the Secret Manager store. -/
  secretGet : String → Option String
  /-- Result of `key in secrets` on the Secret Manager store. -/
  secretHasKey : String → Bool
  /-- Result of `secrets[key]`, with `none` when the access raises. -/
  secretAccess : String → Option String
  /-- Value of `sys.stdin.isatty()`. -/
  stdinIsATTY : Bool
  /-- The `scopes` attribute of the credentials returned by `get_user_credentials`
  when called with the given scopes. -/
  oauthFlowScopes : List String → Option (List String)
  /-- Result of `to_json()` of the credentials returned by `get_user_credentials`. -/
  oauthFlowJson : String
  /-- The `email` claim of the verified ID token of the flow credentials. -/
  oauthEmailClaim : String

/-- The mutable state of a `GCPAuth` object (`GCPAuth.__init__`). -/
structure GCPAuth where
  organization? : Option String
  project? : Option String
  oauthUserEmail : Option String
  ignoreCachedOauthCredentials : Bool
  /-- The `self._credentials` in-memory credential cache, a dictionary keyed
  by `(organization_id, project, scopes_tuple)`. -/
  credentialsCache : List ((String × String × List String) × Credentials)

/-- Dictionary read `d.get(k)` on the credential cache. -/
def cacheGet (cache : List ((String × String × List String) × Credentials))
    (k : String × String × List String) : Option Credentials :=
  (cache.find? (fun e => e.1 = k)).map (·.2)

/-- Dictionary write `d[k] = v` on the credential cache. -/
def cacheSet (cache : List ((String × String × List String) × Credentials))
    (k : String × String × List String) (v : Credentials) :
    List ((String × String × List String) × Credentials) :=
  (k, v) :: cache.filter (fun e => ¬ e.1 = k)

/-- The `AuthConfig` view of a GCP configuration (the base class reads only
the organization). -/
def GCPConfig.authConfig (cfg : GCPConfig) : AuthConfig :=
  { toolOrganization := cfg.toolOrganization }

/-- The `Auth` view of a `GCPAuth` object. -/
def GCPAuth.authBase (self : GCPAuth) : Auth :=
  { organization? := self.organization? }

/-- Model of `GCPAuth.project`: the argument, the constructor value, the
`tool.stormware.project` value, or the `project.name` value of
`pyproject.toml` — first truthy wins; raises `ValueError` otherwise. -/
def GCPAuth.project (cfg : GCPConfig) (self : GCPAuth) (project : Option String) :
    Except String String :=
  match firstTruthy [project, self.project?, cfg.toolProject, cfg.pyprojectName] with
  | some s => .ok s
  | none => .error "You must provide a project"

/-- Model of `GCPAuth.project_id`: the string `(project)-(organization_id)`. -/
def GCPAuth.projectId (cfg : GCPConfig) (self : GCPAuth)
    (organization project : Option String) : Except String String :=
  match GCPAuth.project cfg self project with
  | .error e => .error e
  | .ok p =>
    match Auth.organizationId cfg.authConfig self.authBase organization with
    | .error e => .error e
    | .ok oid => .ok (p ++ "-" ++ oid)

/-- The path of the organization credentials file
(`$XDG_CONFIG_HOME/gcloud/credentials/(organization_id).json`). -/
def orgFilePath (env : Env) (oid : String) : String :=
  env.xdgConfigHome ++ "/gcloud/credentials/" ++ oid ++ ".json"

/-- The organization credentials file path when it exists, `none` otherwise
(the body of `credentials_path` after the organization ID is resolved). -/
def credPathOf (env : Env) (oid : String) : Option String :=
  if env.fileExists (orgFilePath env oid) then some (orgFilePath env oid) else none

/-- Model of `GCPAuth.credentials_path`: the path
`$XDG_CONFIG_HOME/gcloud/credentials/(organization_id).json`, or `none` when
no file exists there. -/
def GCPAuth.credentialsPath (cfg : GCPConfig) (env : Env) (self : GCPAuth)
    (organization : Option String) : Except String (Option String) :=
  match Auth.organizationId cfg.authConfig self.authBase organization with
  | .error e => .error e
  | .ok oid => .ok (credPathOf env oid)

/-- Observable steps of a credential resolution, recorded as a trace. -/
inductive Event
  /-- The in-memory cache already held the requested credentials. -/
  | cacheHit
  /-- Credentials were loaded from the organization credentials file. -/
  | resolvedFromFile
  /-- The file credentials were wrapped in service-account impersonation. -/
  | impersonation
  /-- The platform application default credentials were loaded. -/
  | resolvedDefault
  /-- Step where `_get_scoped_credentials` (the re-authentication path) was entered. -/
  | reauthFlow
  /-- The interactive OAuth 2.0 flow was executed. -/
  | oauthFlowRun
  deriving DecidableEq, Repr

/-- Persistence side effects performed during a resolution. -/
inductive Effect
  /-- A value was written to the secret store under the given key. -/
  | secretWrite (key value : String)
  /-- A value was written to the local file at the given path. -/
  | fileWrite (path value : String)
  deriving DecidableEq, Repr

/-- The local OAuth credential cache path
(`$XDG_CONFIG_HOME/stormware/google/(key).json`). -/
def localCredentialsPath (env : Env) (key : String) : String :=
  env.xdgConfigHome ++ "/stormware/google/" ++ key ++ ".json"

/-- The pattern `argument or self._config.get(name, default)`: the argument
when truthy, otherwise the configured value, otherwise the default. -/
def resolveKeyArg (arg cfgVal : Option String) (dflt : String) : String :=
  if truthyStr arg then arg.getD "" else cfgVal.getD dflt

/-- The effective OAuth credentials key
(`oauth_credentials_key or self._config.get('oauth_credentials_key', ...)`). -/
def oauthKeyOf (cfg : GCPConfig) (arg : Option String) : String :=
  resolveKeyArg arg cfg.oauthCredentialsKey DEFAULT_OAUTH_CREDENTIALS_KEY

/-- The effective OAuth client secrets key. -/
def clientSecretsKeyOf (cfg : GCPConfig) (arg : Option String) : String :=
  resolveKeyArg arg cfg.oauthClientSecretsKey DEFAULT_OAUTH_CLIENT_SECRETS_KEY

/-- Model of `GCPAuth._get_cached_oauth_credentials`: the Secret Manager value under
the credentials key when truthy, otherwise the local cache file when it
exists, otherwise nothing. -/
def getCachedOauthCredentials (env : Env) (key path : String) : Option Credentials :=
  if truthyStr (env.secretGet key) then
    some { source := .oauth, scopes := env.parseOauthScopes ((env.secretGet key).getD "") }
  else if env.fileExists path then
    some { source := .oauth, scopes := env.parseOauthScopes (env.readFile path) }
  else none

/-- Function `unique` from `logikal_utils.operators`: order-preserving deduplication. -/
def listUnique (l : List String) : List String :=
  l.foldl (fun acc x => if x ∈ acc then acc else acc ++ [x]) []

/-- Model of `GCPAuth._all_scopes`: prepends the OpenID scopes (deduplicated) when an
OAuth user email is configured. -/
def GCPAuth.allScopes (self : GCPAuth) (scopes : List String) : List String :=
  if truthyStr self.oauthUserEmail then
    listUnique ("openid" :: "https://www.googleapis.com/auth/userinfo.email" :: scopes)
  else scopes

/-- Model of `GCPAuth._get_scoped_credentials`: the OAuth 2.0 re-authentication path.
Returns cached OAuth credentials when present (and not ignored); otherwise
runs the interactive flow and persists the obtained credentials either in the
secret store (when the credentials key already exists there) or in the local
cache file.  The nested `SecretManager` connector is abstracted by the
`secretGet` / `secretHasKey` / `secretAccess` fields of the environment.
Returns the credentials, the trace and the persistence effects. -/
def GCPAuth.getScopedCredentials (cfg : GCPConfig) (env : Env) (self : GCPAuth)
    (scopes : List String) (oauthCredentialsKey? oauthClientSecretsKey? : Option String) :
    Except String (Credentials × List Event × List Effect) :=
  let key := oauthKeyOf cfg oauthCredentialsKey?
  let path := localCredentialsPath env key
  match (if self.ignoreCachedOauthCredentials then none
         else getCachedOauthCredentials env key path) with
  | some cached => .ok (cached, [], [])
  | none =>
    if ¬ env.stdinIsATTY then
      .error "User authentication is required but this is not an interactive session"
    else
      let secretsKey := clientSecretsKeyOf cfg oauthClientSecretsKey?
      match env.secretAccess secretsKey with
      | none => .error "could not load the OAuth 2.0 client secrets"
      | some _clientSecrets =>
        let credentials : Credentials :=
          { source := .oauth, scopes := env.oauthFlowScopes (self.allScopes scopes) }
        if truthyStr self.oauthUserEmail
            && env.oauthEmailClaim != self.oauthUserEmail.getD "" then
          .error "Invalid email address"
        else
          let credentialsString := env.oauthFlowJson
          if env.secretHasKey key then
            .ok (credentials, [.oauthFlowRun], [.secretWrite key credentialsString])
          else
            .ok (credentials, [.oauthFlowRun], [.fileWrite path credentialsString])

/-- Credential resolution from the organization file or the platform default
source — the branch of `GCPAuth.credentials` between the cache lookup and the
scope check.  `pathOpt` is the result of `credentials_path`. -/
def resolveBaseCredentials (cfg : GCPConfig) (env : Env) (pathOpt : Option String)
    (projectId : String) : Credentials × List Event :=
  match pathOpt with
  | some path =>
    let fileCredentials : Credentials :=
      { source := .orgFile,
        scopes := env.parseOauthScopes (env.readFile path),
        quotaProject := some projectId }
    if truthyStr cfg.serviceAccount then
      ({ source := .impersonated,
         scopes := env.impersonatedScopes,
         quotaProject := some projectId },
       [.resolvedFromFile, .impersonation])
    else
      (fileCredentials, [.resolvedFromFile])
  | none =>
    ({ source := .platformDefault, scopes := env.defaultScopes }, [.resolvedDefault])

/-- The base credential resolution of `GCPAuth.credentials` for a resolved
organization ID and project name: `resolveBaseCredentials` applied to the
result of `credentials_path` and the project ID. -/
def baseResolution (cfg : GCPConfig) (env : Env) (oid p : String) :
    Credentials × List Event :=
  resolveBaseCredentials cfg env (credPathOf env oid) (p ++ "-" ++ oid)

/-- The requested scopes that are absent from the credentials' `scopes`
attribute (`getattr(credentials, 'scopes', None) or []`). -/
def missingScopes (scopes : List String) (credentials : Credentials) : List String :=
  scopes.filter (fun s => ¬ s ∈ credentials.scopes.getD [])

/-- Model of `GCPAuth.credentials`: the main resolution.  Returns the credentials, the
updated authentication manager state, the trace and the persistence effects.
The `scopes` argument models `tuple(scopes or [])` (a `None` argument and an
empty iterable are indistinguishable downstream). -/
def GCPAuth.credentials (cfg : GCPConfig) (env : Env) (self : GCPAuth)
    (organization project : Option String) (scopes : List String)
    (oauthCredentialsKey? oauthClientSecretsKey? : Option String) :
    Except String (Credentials × GCPAuth × List Event × List Effect) :=
  match Auth.organizationId cfg.authConfig self.authBase organization with
  | .error e => .error e
  | .ok organizationId =>
    match GCPAuth.project cfg self project with
    | .error e => .error e
    | .ok project =>
      let cacheKey := (organizationId, project, scopes)
      match cacheGet self.credentialsCache cacheKey with
      | some cached => .ok (cached, self, [.cacheHit], [])
      | none =>
        match GCPAuth.credentialsPath cfg env self organization with
        | .error e => .error e
        | .ok pathOpt =>
          match GCPAuth.projectId cfg self organization (some project) with
          | .error e => .error e
          | .ok projectId =>
            let (base, events) := resolveBaseCredentials cfg env pathOpt projectId
            if (missingScopes scopes base).isEmpty then
              let state :=
                { self with credentialsCache := cacheSet self.credentialsCache cacheKey base }
              .ok (base, state, events, [])
            else
              match GCPAuth.getScopedCredentials cfg env self scopes
                  oauthCredentialsKey? oauthClientSecretsKey? with
              | .error e => .error e
              | .ok (reauthed, reauthEvents, effects) =>
                let state :=
                  { self with
                    credentialsCache := cacheSet self.credentialsCache cacheKey reauthed }
                .ok (reauthed, state, events ++ [.reauthFlow] ++ reauthEvents, effects)

/-! ## stormware/amazon/auth.py : the AWS authentication manager

The INI parsing of the credentials file is external (`ConfigParser`); the
environment supplies whether the file exists and, when it does, the list of
its sections. -/

/-- The state of an `AWSAuth` object: the base state and the set of available
named profiles computed in `AWSAuth.__init__`. -/
structure AWSAuth where
  organization? : Option String
  profiles : Finset String
  deriving DecidableEq

/-- Model of `AWSAuth.__init__`: the profiles are the sections of the credentials file
when it exists, and empty otherwise. -/
def AWSAuth.init (organization? : Option String) (credentialsFileExists : Bool)
    (sections : List String) : AWSAuth :=
  { organization? := organization?,
    profiles := if credentialsFileExists then sections.toFinset else ∅ }

/-- The `Auth` view of an `AWSAuth` object. -/
def AWSAuth.authBase (self : AWSAuth) : Auth :=
  { organization? := self.organization? }

/-- Model of `AWSAuth.profile`: the organization ID when it is an available profile,
`None` otherwise. -/
def AWSAuth.profile (cfg : AuthConfig) (self : AWSAuth) (organization : Option String) :
    Except String (Option String) :=
  match Auth.organizationId cfg self.authBase organization with
  | .error e => .error e
  | .ok organizationId =>
    .ok (if organizationId ∈ self.profiles then some organizationId else none)

/-! ## stormware/google/secrets.py : the Secret Manager connector

The secret behind a single key is modelled as its list of versions in
creation order; version names are the positions at which versions were
added.  `access_secret_version(latest)` returns the data of the most recent
version when it is enabled, raises `FailedPrecondition` when that version is
disabled or destroyed, and raises `NotFound` when the secret has no version.
The checksums computed by the connector are modelled as always matching (the
transport is not corrupted). -/

/-- The lifecycle state of a secret version. -/
inductive VersionState
  | enabled
  | disabled
  | destroyed
  deriving DecidableEq, Repr

/-- A version of a secret. -/
structure SecretVersion where
  name : Nat
  state : VersionState
  data : String
  deriving DecidableEq, Repr

/-- The versions of a single secret, in creation order. -/
structure SecretState where
  versions : List SecretVersion
  deriving DecidableEq, Repr

/-- Errors raised by the Secret Manager service. -/
inductive GError
  | notFound
  | failedPrecondition
  | permissionDenied
  deriving DecidableEq, Repr

/-- Result of `client.access_secret_version` on the `latest` version alias. -/
def accessLatest (s : SecretState) : Except GError String :=
  match s.versions.getLast? with
  | none => .error .notFound
  | some v => if v.state = .enabled then .ok v.data else .error .failedPrecondition

/-- Model of `SecretManager.get`: the secret value, with `PermissionDenied` and
`FailedPrecondition` mapped to the default `None`; other errors propagate. -/
def secretManagerGet (s : SecretState) : Except GError (Option String) :=
  match accessLatest s with
  | .ok d => .ok (some d)
  | .error .failedPrecondition => .ok none
  | .error .permissionDenied => .ok none
  | .error e => .error e

/-- Model of `SecretManager._destroy_versions`: destroys every version that is not in
the skip list and not already destroyed. -/
def destroyVersions (skipNames : List Nat) (versions : List SecretVersion) :
    List SecretVersion :=
  versions.map (fun v =>
    if ¬ v.name ∈ skipNames ∧ ¬ v.state = .destroyed then
      { v with state := .destroyed }
    else v)

/-- The name `add_secret_version` gives to the next version. -/
def nextVersionName (s : SecretState) : Nat :=
  s.versions.length + 1

/-- Model of `SecretManager.__setitem__`: returns unchanged when the currently
retrievable value already equals the new value; otherwise adds one enabled
version holding the new value and, when `destroyOldVersions` is set,
destroys all other non-destroyed versions. -/
def secretManagerSet (destroyOldVersions : Bool) (s : SecretState) (value : String) :
    Except GError SecretState :=
  match secretManagerGet s with
  | .error e => .error e
  | .ok current =>
    if current = some value then
      .ok s
    else
      let latestName := nextVersionName s
      let added := s.versions ++ [{ name := latestName, state := .enabled, data := value }]
      if destroyOldVersions then
        .ok { versions := destroyVersions [latestName] added }
      else
        .ok { versions := added }

/-! ## stormware/google/drive.py : Drive path objects

`DrivePath.__init__` validates the path segments and extracts the shared
drive name from a first segment starting with `//`.  We model the
constructor as a function from the segment list to the extracted drive name
and the segment list handed to `PurePath.__init__`. -/

/-- Python `s.startswith(p)`. -/
def pyStartsWith (s p : String) : Bool := s.data.take p.data.length = p.data

/-- The drive-name extraction of `DrivePath.__init__`:
`first_segment.lstrip('/').split('/', 1)` as the candidate drive name and the
optional remainder. -/
def driveNameOf (first : String) : String × Option (List Char) :=
  let stripped := first.data.dropWhile (fun c => c = '/')
  let split := splitFirst '/' stripped
  (String.mk split.1, split.2)

/-- Model of `DrivePath.__init__` on string segments. -/
def drivePathInit (pathsegments : List String) : Except String (String × List String) :=
  match pathsegments with
  | [] => .error "The first path segment must start with // or /"
  | first :: rest =>
    if ¬ pyStartsWith first "/" then
      .error "The first path segment must start with // or /"
    else if pyStartsWith first "//" then
      if (driveNameOf first).1 = "" then
        .error "Missing shared drive name"
      else
        match (driveNameOf first).2 with
        | some remainder => .ok ((driveNameOf first).1, String.mk remainder :: rest)
        | none => .ok ((driveNameOf first).1, rest)
    else
      .ok ("", first :: rest)

/-- Model of `DrivePath.drive`: the shared drive name of a successfully constructed
path (the first component of the result of `drivePathInit`). -/
def drivePathDrive (r : String × List String) : String := r.1

/-! ## Helper lemmas -/

/-- Single-character replacement is a character map (fuel version). -/
theorem replaceCharsFuel_single (o n : Char) :
    ∀ (fuel : Nat) (l : List Char), l.length ≤ fuel →
      replaceCharsFuel [o] [n] fuel l = l.map (fun c => if c = o then n else c)
  | 0, [], _ => by simp [replaceCharsFuel]
  | 0, _ :: _, h => by simp at h
  | _ + 1, [], _ => by simp [replaceCharsFuel]
  | fuel + 1, c :: cs, h => by
    have hlen : cs.length ≤ fuel := by simpa using h
    by_cases hc : c = o
    · subst hc
      simp [replaceCharsFuel, replaceCharsFuel_single c n fuel cs hlen]
    · simp [replaceCharsFuel, hc, Ne.symm hc, replaceCharsFuel_single o n fuel cs hlen]

/-- Single-character replacement is a character map. -/
theorem replaceChars_single (o n : Char) (l : List Char) :
    replaceChars [o] [n] l = l.map (fun c => if c = o then n else c) :=
  replaceCharsFuel_single o n l.length l le_rfl

/-! ## The claims -/

/-- C6: for every organization name that `Auth.organization` resolves,
`Auth.organization_id` returns the name with every dot replaced by a dash
and every other character unchanged. -/
theorem organizationId_replaces_dots (cfg : AuthConfig) (self : Auth)
    (organization : Option String) (s : String)
    (hs : Auth.organization cfg self organization = .ok s) :
    ∃ t, Auth.organizationId cfg self organization = .ok t ∧
      t.data = s.data.map (fun c => if c = '.' then '-' else c) := by
  refine ⟨String.mk (replaceChars ['.'] ['-'] s.data), ?_, ?_⟩
  · unfold Auth.organizationId
    rw [hs]
    rfl
  · simp [replaceChars_single]

/-- Witness for C6 at a concrete organization name. -/
theorem organizationId_replaces_dots_witness :
    ∃ t, Auth.organizationId ⟨none⟩ ⟨some "logikal.io"⟩ none = .ok t ∧
      t.data = ("logikal.io" : String).data.map (fun c => if c = '.' then '-' else c) :=
  organizationId_replaces_dots ⟨none⟩ ⟨some "logikal.io"⟩ none "logikal.io" rfl

/-- C7: for every resolvable organization and project, `GCPAuth.project_id`
is exactly the resolved project name, a dash, and the organization ID. -/
theorem projectId_concatenation (cfg : GCPConfig) (self : GCPAuth)
    (organization project : Option String) (p oid : String)
    (hp : GCPAuth.project cfg self project = .ok p)
    (ho : Auth.organizationId cfg.authConfig self.authBase organization = .ok oid) :
    GCPAuth.projectId cfg self organization project = .ok (p ++ "-" ++ oid) := by
  unfold GCPAuth.projectId
  rw [hp, ho]

/-- Witness for C7 at a concrete configuration. -/
theorem projectId_concatenation_witness :
    GCPAuth.projectId ⟨some "logikal.io", some "storm", none, none, none, none⟩
      ⟨none, none, none, false, []⟩ none none = .ok "storm-logikal-io" :=
  projectId_concatenation ⟨some "logikal.io", some "storm", none, none, none, none⟩
    ⟨none, none, none, false, []⟩ none none "storm" "logikal-io" rfl rfl

/-- C8: `AWSAuth.profile` returns the organization ID exactly when the
credentials file exists and contains a section with that name, and `None`
otherwise; the available profiles are the sections of the credentials file,
or empty when the file does not exist. -/
theorem awsAuth_profile_spec (cfg : AuthConfig) (organization? : Option String)
    (credentialsFileExists : Bool) (sections : List String)
    (organization : Option String) (oid : String)
    (ho : Auth.organizationId cfg
      (AWSAuth.init organization? credentialsFileExists sections).authBase organization
      = .ok oid) :
    (AWSAuth.init organization? credentialsFileExists sections).profiles
      = (if credentialsFileExists then sections.toFinset else ∅) ∧
    AWSAuth.profile cfg (AWSAuth.init organization? credentialsFileExists sections) organization
      = .ok (if credentialsFileExists ∧ oid ∈ sections then some oid else none) := by
  refine ⟨rfl, ?_⟩
  unfold AWSAuth.profile
  rw [ho]
  by_cases hf : credentialsFileExists
  · by_cases hm : oid ∈ sections
    · simp [AWSAuth.init, hf, hm]
    · simp [AWSAuth.init, hf, hm]
  · simp [AWSAuth.init, hf]

/-- Witness for C8 at a concrete credentials file. -/
theorem awsAuth_profile_spec_witness :
    (AWSAuth.init (some "logikal.io") true ["logikal-io", "other"]).profiles
      = (if true then (["logikal-io", "other"] : List String).toFinset else ∅) ∧
    AWSAuth.profile ⟨none⟩ (AWSAuth.init (some "logikal.io") true ["logikal-io", "other"]) none
      = .ok (if (true : Bool) ∧ "logikal-io" ∈ (["logikal-io", "other"] : List String)
             then some "logikal-io" else none) :=
  awsAuth_profile_spec ⟨none⟩ (some "logikal.io") true ["logikal-io", "other"] none
    "logikal-io" rfl

/-- The part before the separator returned by `splitFirst` is the longest
separator-free initial run. -/
theorem splitFirst_fst (sep : Char) :
    ∀ l : List Char, (splitFirst sep l).1 = l.takeWhile (fun c => c != sep)
  | [] => rfl
  | c :: cs => by
    by_cases h : c = sep
    · simp [splitFirst, List.takeWhile_cons, h]
    · simp [splitFirst, List.takeWhile_cons, h, splitFirst_fst sep cs]

/-- C10: `DrivePath` construction fails on an empty segment list, on a first
segment that does not start with a slash, and on a first segment that starts
with a double slash but holds no drive name; on success, the drive name is
non-empty exactly when the first segment started with a double slash, and is
then the run of the first segment between its leading slashes and the next
slash. -/
theorem drivePath_validation :
    (∀ pathsegments : List String,
        (pathsegments = [] ∨
          ∃ first rest, pathsegments = first :: rest ∧ pyStartsWith first "/" = false) →
        ∃ msg, drivePathInit pathsegments = .error msg) ∧
    (∀ (first : String) (rest : List String),
        pyStartsWith first "//" = true → first.data.all (fun c => c = '/') = true →
        drivePathInit (first :: rest) = .error "Missing shared drive name") ∧
    (∀ (pathsegments : List String) (r : String × List String),
        drivePathInit pathsegments = .ok r →
        ∃ first rest, pathsegments = first :: rest ∧
          (drivePathDrive r ≠ "" ↔ pyStartsWith first "//" = true) ∧
          (pyStartsWith first "//" = true →
            (drivePathDrive r).data
              = (first.data.dropWhile (fun c => c = '/')).takeWhile (fun c => c != '/'))) := by
  refine ⟨?_, ?_, ?_⟩
  · rintro segs (rfl | ⟨first, rest, rfl, hf⟩)
    · exact ⟨"The first path segment must start with // or /", rfl⟩
    · exact ⟨"The first path segment must start with // or /", by simp [drivePathInit, hf]⟩
  · intro first rest h2 hall
    have htake2 : first.data.take 2 = ['/', '/'] := by
      simpa [pyStartsWith, String.data] using h2
    have h1 : pyStartsWith first "/" = true := by
      have : first.data.take 1 = ['/'] := by
        have := congrArg (List.take 1) htake2
        simpa [List.take_take] using this
      simpa [pyStartsWith, String.data] using this
    have hdrop : first.data.dropWhile (fun c => decide (c = '/')) = [] := by
      rw [List.dropWhile_eq_nil_iff]
      intro x hx
      simpa using List.all_eq_true.mp hall x hx
    have hdn : driveNameOf first = ("", none) := by
      simp [driveNameOf, hdrop, splitFirst]
    simp [drivePathInit, h1, h2, hdn]
  · intro segs r h
    match segs with
    | [] => exact absurd h (by simp [drivePathInit])
    | first :: rest =>
      refine ⟨first, rest, rfl, ?_⟩
      simp only [drivePathInit] at h
      by_cases h1 : pyStartsWith first "/" = true
      · rw [if_neg (by simp [h1])] at h
        by_cases h2 : pyStartsWith first "//" = true
        · rw [if_pos (by simp [h2])] at h
          by_cases hdn : (driveNameOf first).1 = ""
          · rw [if_pos hdn] at h
            exact absurd h (by simp)
          · rw [if_neg hdn] at h
            have hdrive : drivePathDrive r = (driveNameOf first).1 := by
              cases hsplit : (driveNameOf first).2 with
              | none =>
                rw [hsplit] at h
                cases h
                rfl
              | some remainder =>
                rw [hsplit] at h
                cases h
                rfl
            refine ⟨by simp [hdrive, hdn, h2], fun _ => ?_⟩
            rw [hdrive]
            simp [driveNameOf, splitFirst_fst]
        · rw [if_neg (by simp [h2])] at h
          cases h
          simp [drivePathDrive, h2]
      · rw [if_pos (by simp [h1])] at h
        exact absurd h (by simp)

/-- Witness for C10 at concrete paths. -/
theorem drivePath_validation_witness :
    ∃ msg, drivePathInit [] = .error msg :=
  drivePath_validation.1 [] (Or.inl rfl)

/-- Destroying versions leaves a version in the skip list untouched. -/
theorem destroyVersions_append_skip (skip : List Nat) (l : List SecretVersion)
    (v : SecretVersion) (hv : v.name ∈ skip) :
    destroyVersions skip (l ++ [v]) = destroyVersions skip l ++ [v] := by
  simp [destroyVersions, hv]

/-- C9: a completed `SecretManager.__setitem__` leaves the secret unchanged
when the currently retrievable value already equals the new value; otherwise
it appends exactly one enabled version holding the new value and, when old
versions are destroyed, destroys every other non-destroyed version. -/
theorem secretManagerSet_idempotent (destroyOld : Bool) (s : SecretState) (value : String)
    (s' : SecretState) (h : secretManagerSet destroyOld s value = .ok s') :
    (secretManagerGet s = .ok (some value) → s' = s) ∧
    (secretManagerGet s ≠ .ok (some value) →
      s'.versions
        = (if destroyOld then destroyVersions [nextVersionName s] s.versions else s.versions)
          ++ [{ name := nextVersionName s, state := .enabled, data := value }]) := by
  unfold secretManagerSet at h
  cases hg : secretManagerGet s with
  | error e =>
    rw [hg] at h
    exact absurd h (by simp)
  | ok current =>
    rw [hg] at h
    simp only [] at h
    by_cases hc : current = some value
    · rw [if_pos hc] at h
      cases h
      refine ⟨fun _ => rfl, fun hne => absurd ?_ hne⟩
      rw [hc]
    · rw [if_neg hc] at h
      refine ⟨fun heq => ?_, fun _ => ?_⟩
      · exact absurd (Except.ok.inj heq) hc
      · by_cases hd : destroyOld = true
        · rw [if_pos hd] at h
          cases h
          rw [if_pos hd]
          exact destroyVersions_append_skip _ _ _ (by simp)
        · rw [if_neg hd] at h
          cases h
          rw [if_neg hd]

/-- Witness for C9 at a concrete secret state. -/
theorem secretManagerSet_idempotent_witness :
    (secretManagerGet ⟨[⟨1, .enabled, "a"⟩]⟩ = .ok (some "b") →
      (⟨[⟨1, .destroyed, "a"⟩, ⟨2, .enabled, "b"⟩]⟩ : SecretState) = ⟨[⟨1, .enabled, "a"⟩]⟩) ∧
    (secretManagerGet ⟨[⟨1, .enabled, "a"⟩]⟩ ≠ .ok (some "b") →
      (⟨[⟨1, .destroyed, "a"⟩, ⟨2, .enabled, "b"⟩]⟩ : SecretState).versions
        = (if true then
            destroyVersions [nextVersionName ⟨[⟨1, .enabled, "a"⟩]⟩] [⟨1, .enabled, "a"⟩]
           else [⟨1, .enabled, "a"⟩])
          ++ [{ name := nextVersionName ⟨[⟨1, .enabled, "a"⟩]⟩,
                state := .enabled, data := "b" }]) :=
  secretManagerSet_idempotent true ⟨[⟨1, .enabled, "a"⟩]⟩ "b"
    ⟨[⟨1, .destroyed, "a"⟩, ⟨2, .enabled, "b"⟩]⟩ rfl

/-- A cache lookup right after the corresponding store succeeds. -/
theorem cacheGet_cacheSet (cache : List ((String × String × List String) × Credentials))
    (k : String × String × List String) (v : Credentials) :
    cacheGet (cacheSet cache k v) k = some v := by
  simp [cacheGet, cacheSet]

/-- The result of `firstTruthy` is never the empty string. -/
theorem firstTruthy_ne_empty :
    ∀ (l : List (Option String)) (s : String), firstTruthy l = some s → s ≠ ""
  | [], s, h => by simp [firstTruthy] at h
  | o :: rest, s, h => by
    rw [firstTruthy] at h
    by_cases ho : truthyStr o = true
    · rw [if_pos ho] at h
      cases o with
      | none => simp [truthyStr] at ho
      | some t =>
        cases h
        simpa [truthyStr] using ho
    · rw [if_neg ho] at h
      exact firstTruthy_ne_empty rest s h

/-- Resolving the project with an already-resolved project name returns it
(resolved names are truthy, so the argument short-circuits). -/
theorem project_resolve_idem (cfg : GCPConfig) (self self' : GCPAuth) (pr : Option String)
    (p : String) (hp : GCPAuth.project cfg self pr = .ok p) :
    GCPAuth.project cfg self' (some p) = .ok p := by
  have hne : p ≠ "" := by
    unfold GCPAuth.project at hp
    cases hf : firstTruthy [pr, self.project?, cfg.toolProject, cfg.pyprojectName] with
    | none =>
      rw [hf] at hp
      exact absurd hp (by simp)
    | some t =>
      rw [hf] at hp
      cases hp
      exact firstTruthy_ne_empty _ _ hf
  unfold GCPAuth.project
  simp [firstTruthy, truthyStr, hne]

/-- Value of `project_id` for a resolved organization and project. -/
theorem projectId_of_resolved (cfg : GCPConfig) (self : GCPAuth)
    (organization pr : Option String) (oid p : String)
    (hoid : Auth.organizationId cfg.authConfig self.authBase organization = .ok oid)
    (hp : GCPAuth.project cfg self pr = .ok p) :
    GCPAuth.projectId cfg self organization (some p) = .ok (p ++ "-" ++ oid) := by
  unfold GCPAuth.projectId
  rw [project_resolve_idem cfg self self pr p hp, hoid]

/-- The trace of the base resolution, by source. -/
theorem baseResolution_events (cfg : GCPConfig) (env : Env) (oid p : String) :
    (baseResolution cfg env oid p).2
      = (if env.fileExists (orgFilePath env oid)
         then (if truthyStr cfg.serviceAccount
               then [Event.resolvedFromFile, Event.impersonation]
               else [Event.resolvedFromFile])
         else [Event.resolvedDefault]) := by
  unfold baseResolution credPathOf
  by_cases hf : env.fileExists (orgFilePath env oid) <;>
    by_cases hs : truthyStr cfg.serviceAccount = true <;>
      simp [resolveBaseCredentials, hf, hs]

/-- The re-authentication and OAuth flow events never occur during the base
resolution. -/
theorem reauth_not_in_baseResolution (cfg : GCPConfig) (env : Env) (oid p : String) :
    Event.reauthFlow ∉ (baseResolution cfg env oid p).2 ∧
    Event.oauthFlowRun ∉ (baseResolution cfg env oid p).2 := by
  rw [baseResolution_events]
  by_cases hf : env.fileExists (orgFilePath env oid) <;>
    by_cases hs : truthyStr cfg.serviceAccount = true <;>
      simp [hf, hs]

/-- Empty missing scopes means every requested scope is present. -/
theorem missingScopes_isEmpty_iff (scopes : List String) (cred : Credentials) :
    (missingScopes scopes cred).isEmpty = true
      ↔ ∀ sc ∈ scopes, sc ∈ cred.scopes.getD [] := by
  simp [missingScopes, List.isEmpty_iff]

/-- Case analysis of a successful `_get_scoped_credentials` run: either
cached OAuth credentials were returned with no flow and no persistence, or
the interactive flow ran and exactly one persistence effect occurred. -/
theorem getScopedCredentials_cases (cfg : GCPConfig) (env : Env) (self : GCPAuth)
    (scopes : List String) (ock ocsk : Option String)
    (c : Credentials) (inner : List Event) (effs : List Effect)
    (h : GCPAuth.getScopedCredentials cfg env self scopes ock ocsk = .ok (c, inner, effs)) :
    (inner = [] ∧ effs = [] ∧ self.ignoreCachedOauthCredentials = false ∧
       getCachedOauthCredentials env (oauthKeyOf cfg ock)
         (localCredentialsPath env (oauthKeyOf cfg ock)) = some c) ∨
    (inner = [Event.oauthFlowRun] ∧
       c = { source := .oauth, scopes := env.oauthFlowScopes (self.allScopes scopes) } ∧
       effs = (if env.secretHasKey (oauthKeyOf cfg ock)
               then [Effect.secretWrite (oauthKeyOf cfg ock) env.oauthFlowJson]
               else [Effect.fileWrite (localCredentialsPath env (oauthKeyOf cfg ock))
                     env.oauthFlowJson])) := by
  unfold GCPAuth.getScopedCredentials at h
  simp only [] at h
  cases hcache : (if self.ignoreCachedOauthCredentials then none
      else getCachedOauthCredentials env (oauthKeyOf cfg ock)
        (localCredentialsPath env (oauthKeyOf cfg ock))) with
  | some cached =>
    rw [hcache] at h
    simp only [] at h
    cases h
    left
    by_cases hig : self.ignoreCachedOauthCredentials = true
    · rw [if_pos hig] at hcache
      exact absurd hcache (by simp)
    · rw [if_neg hig] at hcache
      exact ⟨rfl, rfl, by simpa using hig, hcache⟩
  | none =>
    rw [hcache] at h
    simp only [] at h
    by_cases htty : env.stdinIsATTY = true
    · rw [if_neg (by simp [htty])] at h
      cases hsa : env.secretAccess (clientSecretsKeyOf cfg ocsk) with
      | none =>
        rw [hsa] at h
        exact absurd h (by simp)
      | some cs =>
        rw [hsa] at h
        simp only [] at h
        by_cases hemail : (truthyStr self.oauthUserEmail
            && env.oauthEmailClaim != self.oauthUserEmail.getD "") = true
        · rw [if_pos hemail] at h
          exact absurd h (by simp)
        · rw [if_neg hemail] at h
          by_cases hsk : env.secretHasKey (oauthKeyOf cfg ock) = true
          · rw [if_pos hsk] at h
            cases h
            exact Or.inr ⟨rfl, rfl, by rw [if_pos hsk]⟩
          · rw [if_neg hsk] at h
            cases h
            exact Or.inr ⟨rfl, rfl, by rw [if_neg hsk]⟩
    · rw [if_pos (by simp [htty])] at h
      exact absurd h (by simp)

/-- Case analysis of a successful `GCPAuth.credentials` call: a cache hit
returns the cached value unchanged; otherwise the result is cached and comes
from the base resolution when no scope is missing, and from the
re-authentication path when some scope is missing. -/
theorem credentials_ok_cases (cfg : GCPConfig) (env : Env) (self : GCPAuth)
    (organization project : Option String) (scopes : List String) (ock ocsk : Option String)
    (c : Credentials) (st : GCPAuth) (ev : List Event) (eff : List Effect) (oid p : String)
    (hoid : Auth.organizationId cfg.authConfig self.authBase organization = .ok oid)
    (hp : GCPAuth.project cfg self project = .ok p)
    (h : GCPAuth.credentials cfg env self organization project scopes ock ocsk
      = .ok (c, st, ev, eff)) :
    (cacheGet self.credentialsCache (oid, p, scopes) = some c ∧ st = self ∧
       ev = [Event.cacheHit] ∧ eff = []) ∨
    (cacheGet self.credentialsCache (oid, p, scopes) = none ∧
       st = { self with
              credentialsCache := cacheSet self.credentialsCache (oid, p, scopes) c } ∧
       ∃ base events, baseResolution cfg env oid p = (base, events) ∧
         (((missingScopes scopes base).isEmpty = true ∧
             c = base ∧ ev = events ∧ eff = []) ∨
          ((missingScopes scopes base).isEmpty = false ∧
             ∃ inner, GCPAuth.getScopedCredentials cfg env self scopes ock ocsk
                 = .ok (c, inner, eff) ∧
               ev = events ++ [Event.reauthFlow] ++ inner))) := by
  unfold GCPAuth.credentials at h
  rw [hoid, hp] at h
  simp only [] at h
  cases hcache : cacheGet self.credentialsCache (oid, p, scopes) with
  | some cached =>
    rw [hcache] at h
    simp only [] at h
    cases h
    exact Or.inl ⟨rfl, rfl, rfl, rfl⟩
  | none =>
    rw [hcache] at h
    simp only [] at h
    have hcp : GCPAuth.credentialsPath cfg env self organization = .ok (credPathOf env oid) := by
      unfold GCPAuth.credentialsPath
      rw [hoid]
    rw [hcp] at h
    simp only [] at h
    rw [projectId_of_resolved cfg self organization project oid p hoid hp] at h
    simp only [] at h
    rcases hbase : resolveBaseCredentials cfg env (credPathOf env oid) (p ++ "-" ++ oid)
      with ⟨base, events⟩
    rw [hbase] at h
    simp only [] at h
    have hbase' : baseResolution cfg env oid p = (base, events) := hbase
    by_cases hms : (missingScopes scopes base).isEmpty = true
    · rw [if_pos hms] at h
      cases h
      exact Or.inr ⟨rfl, rfl, _, _, hbase', Or.inl ⟨hms, rfl, rfl, rfl⟩⟩
    · rw [if_neg hms] at h
      cases hg : GCPAuth.getScopedCredentials cfg env self scopes ock ocsk with
      | error e =>
        rw [hg] at h
        exact absurd h (by simp)
      | ok triple =>
        rcases triple with ⟨r1, r2, r3⟩
        rw [hg] at h
        simp only [] at h
        cases h
        exact Or.inr ⟨rfl, rfl, _, _, hbase',
          Or.inr ⟨by simpa using hms, r2, rfl, rfl⟩⟩

/-! Concrete fixtures used by the witnesses. -/

/-- A concrete configuration with no optional values set. -/
def testCfg : GCPConfig := ⟨none, none, none, none, none, none⟩

/-- A concrete authentication manager with an empty credential cache. -/
def testSelf : GCPAuth := ⟨some "logikal.io", some "storm", none, false, []⟩

/-- The platform default credentials of the test environments. -/
def testDefaultCred : Credentials := ⟨CredSource.platformDefault, none, none⟩

/-- State of `testSelf` after the default credentials were cached. -/
def testSelfCached : GCPAuth :=
  ⟨some "logikal.io", some "storm", none, false,
   [(("logikal-io", "storm", []), testDefaultCred)]⟩

/-- A concrete environment where no file exists and no secret is set. -/
def testEnvNoFile : Env :=
  ⟨"/h", fun _ => false, fun _ => "", fun _ => none, none, none, fun _ => none,
   fun _ => false, fun _ => none, false, fun _ => none, "", ""⟩

/-- C1: a successfully resolved credential is stored in the in-memory cache
under the resolved organization ID, project and requested scopes, and any
subsequent call with the same organization, project and scopes returns the
cached credential unchanged, with a cache-hit trace and no effects,
independently of the environment. -/
theorem credentials_cached_and_reused (cfg : GCPConfig) (env : Env) (self : GCPAuth)
    (organization project : Option String) (scopes : List String) (ock ocsk : Option String)
    (c : Credentials) (st : GCPAuth) (ev : List Event) (eff : List Effect) (oid p : String)
    (hoid : Auth.organizationId cfg.authConfig self.authBase organization = .ok oid)
    (hp : GCPAuth.project cfg self project = .ok p)
    (h : GCPAuth.credentials cfg env self organization project scopes ock ocsk
      = .ok (c, st, ev, eff)) :
    cacheGet st.credentialsCache (oid, p, scopes) = some c ∧
    ∀ (env' : Env) (ock' ocsk' : Option String),
      GCPAuth.credentials cfg env' st organization project scopes ock' ocsk'
        = .ok (c, st, [Event.cacheHit], []) := by
  have hkey : cacheGet st.credentialsCache (oid, p, scopes) = some c ∧
      st.organization? = self.organization? ∧ st.project? = self.project? := by
    rcases credentials_ok_cases cfg env self organization project scopes ock ocsk
        c st ev eff oid p hoid hp h with
      ⟨hc, rfl, -, -⟩ | ⟨-, rfl, -⟩
    · exact ⟨hc, rfl, rfl⟩
    · exact ⟨cacheGet_cacheSet _ _ _, rfl, rfl⟩
  refine ⟨hkey.1, fun env' ock' ocsk' => ?_⟩
  have hoid' : Auth.organizationId cfg.authConfig st.authBase organization = .ok oid := by
    have hb : st.authBase = self.authBase := by
      unfold GCPAuth.authBase
      rw [hkey.2.1]
    rw [hb]
    exact hoid
  have hp' : GCPAuth.project cfg st project = .ok p := by
    unfold GCPAuth.project at hp ⊢
    rw [hkey.2.2]
    exact hp
  unfold GCPAuth.credentials
  rw [hoid', hp']
  simp only []
  rw [hkey.1]

/-- Witness for C1: a concrete resolution, its cache entry, and the cache
hit on the second call. -/
theorem credentials_cached_and_reused_witness :
    cacheGet testSelfCached.credentialsCache ("logikal-io", "storm", []) = some testDefaultCred ∧
    GCPAuth.credentials testCfg testEnvNoFile testSelfCached none none [] none none
      = .ok (testDefaultCred, testSelfCached, [Event.cacheHit], []) :=
  have h := credentials_cached_and_reused testCfg testEnvNoFile testSelf none none [] none none
    testDefaultCred testSelfCached [Event.resolvedDefault] [] "logikal-io" "storm" rfl rfl rfl
  ⟨h.1, h.2 testEnvNoFile none none⟩

/-- C2: on a cache miss, the source priority is fixed: when the organization
credentials file exists the credentials come from it (impersonated exactly
when a service account is configured) and the platform default source is not
used; when it does not exist the platform default source is used; the
re-authentication flow is consulted only after the base resolution, exactly
when the obtained credentials lack some requested scope. -/
theorem credentials_source_priority (cfg : GCPConfig) (env : Env) (self : GCPAuth)
    (organization project : Option String) (scopes : List String) (ock ocsk : Option String)
    (c : Credentials) (st : GCPAuth) (ev : List Event) (eff : List Effect) (oid p : String)
    (hoid : Auth.organizationId cfg.authConfig self.authBase organization = .ok oid)
    (hp : GCPAuth.project cfg self project = .ok p)
    (hmiss : cacheGet self.credentialsCache (oid, p, scopes) = none)
    (h : GCPAuth.credentials cfg env self organization project scopes ock ocsk
      = .ok (c, st, ev, eff)) :
    (env.fileExists (orgFilePath env oid) = true →
       Event.resolvedFromFile ∈ ev ∧ Event.resolvedDefault ∉ ev ∧
       (Event.impersonation ∈ ev ↔ truthyStr cfg.serviceAccount = true)) ∧
    (env.fileExists (orgFilePath env oid) = false →
       Event.resolvedDefault ∈ ev ∧ Event.resolvedFromFile ∉ ev) ∧
    (∃ tail, ev = (baseResolution cfg env oid p).2 ++ tail ∧
       (Event.reauthFlow ∈ tail ↔
         (missingScopes scopes (baseResolution cfg env oid p).1).isEmpty = false)) := by
  rcases credentials_ok_cases cfg env self organization project scopes ock ocsk
      c st ev eff oid p hoid hp h with
    ⟨hc, -, -, -⟩ | ⟨-, -, base, events, hbase, hcases⟩
  · rw [hmiss] at hc
    exact absurd hc (by simp)
  · have hbe := baseResolution_events cfg env oid p
    rw [hbase] at hbe
    simp only [] at hbe
    have hinner : ∀ ev' ∈ ev, ev' = Event.reauthFlow ∨ ev' = Event.oauthFlowRun ∨ ev' ∈ events := by
      rcases hcases with ⟨-, -, rfl, -⟩ | ⟨-, inner, hg, rfl⟩
      · exact fun ev' hev' => Or.inr (Or.inr hev')
      · intro ev' hev'
        rcases getScopedCredentials_cases cfg env self scopes ock ocsk _ _ _ hg with
          ⟨rfl, -⟩ | ⟨rfl, -⟩
        · simp only [List.append_nil, List.mem_append] at hev'
          rcases hev' with hev' | hev'
          · exact Or.inr (Or.inr hev')
          · simp at hev'
            exact Or.inl hev'
        · simp only [List.mem_append] at hev'
          rcases hev' with (hev' | hev') | hev'
          · exact Or.inr (Or.inr hev')
          · simp at hev'
            exact Or.inl hev'
          · simp at hev'
            exact Or.inr (Or.inl hev')
    have hevents_sub : ∀ ev' ∈ events, ev' ∈ ev := by
      rcases hcases with ⟨-, -, rfl, -⟩ | ⟨-, inner, hg, rfl⟩
      · exact fun ev' hev' => hev'
      · intro ev' hev'
        simp [List.mem_append, hev']
    refine ⟨fun hf => ?_, fun hf => ?_, ?_⟩
    · rw [hf] at hbe
      simp only [if_true] at hbe
      by_cases hsa : truthyStr cfg.serviceAccount = true
      · rw [if_pos hsa] at hbe
        subst hbe
        refine ⟨hevents_sub _ (by simp), fun hmem => ?_, ?_⟩
        · rcases hinner _ hmem with h' | h' | h' <;> simp_all
        · simp [hsa, hevents_sub _ (show Event.impersonation ∈
            [Event.resolvedFromFile, Event.impersonation] by simp)]
      · rw [if_neg hsa] at hbe
        subst hbe
        refine ⟨hevents_sub _ (by simp), fun hmem => ?_, ?_, ?_⟩
        · rcases hinner _ hmem with h' | h' | h' <;> simp_all
        · intro hmem
          rcases hinner _ hmem with h' | h' | h' <;> simp_all
        · intro hcontr
          exact absurd hcontr hsa
    · rw [hf] at hbe
      simp only [Bool.false_eq_true, if_false] at hbe
      subst hbe
      refine ⟨hevents_sub _ (by simp), fun hmem => ?_⟩
      rcases hinner _ hmem with h' | h' | h' <;> simp_all
    · rcases hcases with ⟨hms, -, rfl, -⟩ | ⟨hms, inner, hg, rfl⟩
      · exact ⟨[], by simp [hbase], by simp [hbase, hms]⟩
      · exact ⟨[Event.reauthFlow] ++ inner, by simp [hbase], by simp [hbase, hms]⟩

/-- A concrete environment where the organization credentials file exists. -/
def testEnvFile : Env :=
  ⟨"/h", fun _ => true, fun _ => "", fun _ => none, none, none, fun _ => none,
   fun _ => false, fun _ => none, false, fun _ => none, "", ""⟩

/-- Witness for C2: a concrete resolution from the organization file. -/
theorem credentials_source_priority_witness :
    (testEnvFile.fileExists (orgFilePath testEnvFile "logikal-io") = true →
       Event.resolvedFromFile ∈ [Event.resolvedFromFile] ∧
       Event.resolvedDefault ∉ [Event.resolvedFromFile] ∧
       (Event.impersonation ∈ [Event.resolvedFromFile] ↔
         truthyStr testCfg.serviceAccount = true)) ∧
    (testEnvFile.fileExists (orgFilePath testEnvFile "logikal-io") = false →
       Event.resolvedDefault ∈ [Event.resolvedFromFile] ∧
       Event.resolvedFromFile ∉ [Event.resolvedFromFile]) ∧
    (∃ tail, [Event.resolvedFromFile]
        = (baseResolution testCfg testEnvFile "logikal-io" "storm").2 ++ tail ∧
       (Event.reauthFlow ∈ tail ↔
         (missingScopes [] (baseResolution testCfg testEnvFile "logikal-io" "storm").1).isEmpty
           = false)) :=
  credentials_source_priority testCfg testEnvFile testSelf none none [] none none
    ⟨CredSource.orgFile, none, some "storm-logikal-io"⟩
    ⟨some "logikal.io", some "storm", none, false,
     [(("logikal-io", "storm", []), ⟨CredSource.orgFile, none, some "storm-logikal-io"⟩)]⟩
    [Event.resolvedFromFile] [] "logikal-io" "storm" rfl rfl rfl rfl

/-- C3: on a cache miss, the re-authentication path is entered exactly when
some requested scope is absent from the scopes of the base credentials; when
every requested scope is present, the base credentials are returned and the
re-authentication path is never entered. -/
theorem credentials_reauth_iff_missing (cfg : GCPConfig) (env : Env) (self : GCPAuth)
    (organization project : Option String) (scopes : List String) (ock ocsk : Option String)
    (c : Credentials) (st : GCPAuth) (ev : List Event) (eff : List Effect) (oid p : String)
    (hoid : Auth.organizationId cfg.authConfig self.authBase organization = .ok oid)
    (hp : GCPAuth.project cfg self project = .ok p)
    (hmiss : cacheGet self.credentialsCache (oid, p, scopes) = none)
    (h : GCPAuth.credentials cfg env self organization project scopes ock ocsk
      = .ok (c, st, ev, eff)) :
    (Event.reauthFlow ∈ ev ↔
       ∃ sc ∈ scopes, sc ∉ (baseResolution cfg env oid p).1.scopes.getD []) ∧
    ((∀ sc ∈ scopes, sc ∈ (baseResolution cfg env oid p).1.scopes.getD []) →
       c = (baseResolution cfg env oid p).1 ∧ Event.reauthFlow ∉ ev ∧
       Event.oauthFlowRun ∉ ev) := by
  rcases credentials_ok_cases cfg env self organization project scopes ock ocsk
      c st ev eff oid p hoid hp h with
    ⟨hc, -, -, -⟩ | ⟨-, -, base, events, hbase, hcases⟩
  · rw [hmiss] at hc
    exact absurd hc (by simp)
  · have hnr : Event.reauthFlow ∉ events ∧ Event.oauthFlowRun ∉ events := by
      have := reauth_not_in_baseResolution cfg env oid p
      rw [hbase] at this
      simpa using this
    rw [hbase]
    simp only []
    rcases hcases with ⟨hms, rfl, rfl, -⟩ | ⟨hms, inner, hg, rfl⟩
    · have hall := (missingScopes_isEmpty_iff scopes c).mp hms
      refine ⟨?_, fun _ => ⟨rfl, hnr.1, hnr.2⟩⟩
      simp only [iff_false_intro hnr.1, false_iff]
      intro hex
      rcases hex with ⟨sc, hsc, habs⟩
      exact habs (hall sc hsc)
    · have hex : ∃ sc ∈ scopes, sc ∉ base.scopes.getD [] := by
        by_contra hcon
        push_neg at hcon
        have := (missingScopes_isEmpty_iff scopes base).mpr hcon
        rw [hms] at this
        exact absurd this (by simp)
      refine ⟨?_, fun hall => ?_⟩
      · simp only [iff_true_intro hex, iff_true]
        simp [List.mem_append]
      · have := (missingScopes_isEmpty_iff scopes base).mpr hall
        rw [hms] at this
        exact absurd this (by simp)

/-- A concrete environment without organization file but with cached OAuth
credentials in the secret store. -/
def testEnvCachedOauth : Env :=
  ⟨"/h", fun _ => false, fun _ => "", fun _ => none, none, none, fun _ => some "cached",
   fun _ => false, fun _ => none, false, fun _ => none, "", ""⟩

/-- The OAuth credentials parsed from the cached secret of
`testEnvCachedOauth`. -/
def testOauthCred : Credentials := ⟨CredSource.oauth, none, none⟩

/-- State of `testSelf` after the cached OAuth credentials were stored for the scope
`s`. -/
def testSelfOauthCached : GCPAuth :=
  ⟨some "logikal.io", some "storm", none, false,
   [(("logikal-io", "storm", ["s"]), testOauthCred)]⟩

/-- Witness for C3: a concrete resolution in which the requested scope `s`
is missing and the re-authentication path runs. -/
theorem credentials_reauth_iff_missing_witness :
    (Event.reauthFlow ∈ [Event.resolvedDefault, Event.reauthFlow] ↔
       ∃ sc ∈ ["s"], sc ∉ (baseResolution testCfg testEnvCachedOauth
         "logikal-io" "storm").1.scopes.getD []) ∧
    ((∀ sc ∈ ["s"], sc ∈ (baseResolution testCfg testEnvCachedOauth
         "logikal-io" "storm").1.scopes.getD []) →
       testOauthCred = (baseResolution testCfg testEnvCachedOauth "logikal-io" "storm").1 ∧
       Event.reauthFlow ∉ [Event.resolvedDefault, Event.reauthFlow] ∧
       Event.oauthFlowRun ∉ [Event.resolvedDefault, Event.reauthFlow]) :=
  credentials_reauth_iff_missing testCfg testEnvCachedOauth testSelf none none ["s"]
    none none testOauthCred testSelfOauthCached
    [Event.resolvedDefault, Event.reauthFlow] [] "logikal-io" "storm" rfl rfl rfl rfl

/-- C4: in every successful call, the re-authentication path is entered at
most once, and the returned credentials are cached under the resolved key
when the call returns. -/
theorem credentials_reauth_at_most_once (cfg : GCPConfig) (env : Env) (self : GCPAuth)
    (organization project : Option String) (scopes : List String) (ock ocsk : Option String)
    (c : Credentials) (st : GCPAuth) (ev : List Event) (eff : List Effect) (oid p : String)
    (hoid : Auth.organizationId cfg.authConfig self.authBase organization = .ok oid)
    (hp : GCPAuth.project cfg self project = .ok p)
    (h : GCPAuth.credentials cfg env self organization project scopes ock ocsk
      = .ok (c, st, ev, eff)) :
    List.count Event.reauthFlow ev ≤ 1 ∧
    cacheGet st.credentialsCache (oid, p, scopes) = some c := by
  rcases credentials_ok_cases cfg env self organization project scopes ock ocsk
      c st ev eff oid p hoid hp h with
    ⟨hc, rfl, rfl, -⟩ | ⟨-, rfl, base, events, hbase, hcases⟩
  · exact ⟨by simp, hc⟩
  · have hnr : Event.reauthFlow ∉ events := by
      have := (reauth_not_in_baseResolution cfg env oid p).1
      rw [hbase] at this
      simpa using this
    refine ⟨?_, cacheGet_cacheSet _ _ _⟩
    rcases hcases with ⟨-, -, rfl, -⟩ | ⟨-, inner, hg, rfl⟩
    · simp [List.count_eq_zero.mpr hnr]
    · have hinner : inner = [] ∨ inner = [Event.oauthFlowRun] := by
        rcases getScopedCredentials_cases cfg env self scopes ock ocsk _ _ _ hg with
          ⟨rfl, -⟩ | ⟨rfl, -⟩
        · exact Or.inl rfl
        · exact Or.inr rfl
      rcases hinner with rfl | rfl <;>
        simp [List.count_append, List.count_eq_zero.mpr hnr]

/-- Witness for C4: the concrete re-authenticating resolution enters the
path exactly once and caches its result. -/
theorem credentials_reauth_at_most_once_witness :
    List.count Event.reauthFlow [Event.resolvedDefault, Event.reauthFlow] ≤ 1 ∧
    cacheGet testSelfOauthCached.credentialsCache ("logikal-io", "storm", ["s"])
      = some testOauthCred :=
  credentials_reauth_at_most_once testCfg testEnvCachedOauth testSelf none none ["s"]
    none none testOauthCred testSelfOauthCached
    [Event.resolvedDefault, Event.reauthFlow] [] "logikal-io" "storm" rfl rfl rfl

/-- C5: when the interactive OAuth flow produces new credentials, exactly
one persistence effect occurs: a write to the secret store under the
credentials key when that secret already exists, and a write to the local
cache file otherwise; when the flow does not run, nothing is persisted. -/
theorem getScopedCredentials_persistence (cfg : GCPConfig) (env : Env) (self : GCPAuth)
    (scopes : List String) (ock ocsk : Option String)
    (c : Credentials) (inner : List Event) (effs : List Effect)
    (h : GCPAuth.getScopedCredentials cfg env self scopes ock ocsk = .ok (c, inner, effs)) :
    (Event.oauthFlowRun ∈ inner →
       effs = (if env.secretHasKey (oauthKeyOf cfg ock)
               then [Effect.secretWrite (oauthKeyOf cfg ock) env.oauthFlowJson]
               else [Effect.fileWrite (localCredentialsPath env (oauthKeyOf cfg ock))
                     env.oauthFlowJson])) ∧
    (Event.oauthFlowRun ∉ inner → effs = []) := by
  rcases getScopedCredentials_cases cfg env self scopes ock ocsk c inner effs h with
    ⟨rfl, rfl, -, -⟩ | ⟨rfl, -, rfl⟩
  · exact ⟨fun hmem => absurd hmem (by simp), fun _ => rfl⟩
  · exact ⟨fun _ => rfl, fun hmem => absurd (by simp) hmem⟩

/-- A concrete environment in which the interactive OAuth flow runs and no
secret exists under the credentials key. -/
def testEnvFlow : Env :=
  ⟨"/h", fun _ => false, fun _ => "", fun _ => none, none, none, fun _ => none,
   fun _ => false, fun _ => some "cs", true, fun _ => none, "json", ""⟩

/-- Witness for C5: a concrete flow run that persists to the local file. -/
theorem getScopedCredentials_persistence_witness :
    (Event.oauthFlowRun ∈ [Event.oauthFlowRun] →
       [Effect.fileWrite "/h/stormware/google/stormware-google-oauth-credentials.json" "json"]
         = (if testEnvFlow.secretHasKey (oauthKeyOf testCfg none)
            then [Effect.secretWrite (oauthKeyOf testCfg none) testEnvFlow.oauthFlowJson]
            else [Effect.fileWrite (localCredentialsPath testEnvFlow (oauthKeyOf testCfg none))
                  testEnvFlow.oauthFlowJson])) ∧
    (Event.oauthFlowRun ∉ [Event.oauthFlowRun] →
       [Effect.fileWrite "/h/stormware/google/stormware-google-oauth-credentials.json" "json"]
         = []) :=
  getScopedCredentials_persistence testCfg testEnvFlow testSelf [] none none
    ⟨CredSource.oauth, none, none⟩ [Event.oauthFlowRun]
    [Effect.fileWrite "/h/stormware/google/stormware-google-oauth-credentials.json" "json"] rfl

end Stormware
